import Mathlib

/-!
# Verification of the feedback-analyzer backend (`src/main.py`)

A shallow embedding of the core logic of the FastAPI backend:

* the response model `FeedbackOut` and request model `InsightRequest`;
* the insights endpoint `generate_ai_insights` (a pure template fill);
* the aggregation endpoint `analytics_summary` (Mongo `$group`/`$sort`
  pipeline followed by a Python dict comprehension);
* the storage endpoints `create_feedback` and `list_feedback`.

Python dicts preserve insertion order, so they are modelled as association
lists with distinct keys; `d[k] = v` on a present key updates in place,
on an absent key appends at the end.  Python's `sorted(..., reverse=True)`
is a *stable* descending sort, modelled by `List.insertionSort` with the
≥-by-count relation (any two stable sorts for the same preorder agree).
-/

namespace FeedbackApp

open List

/-- The response model `FeedbackOut` (src/main.py lines 26-33).  All of
`id`, `question`, `response`, `improvement`, `category` are required
`str` fields; `severity` is `Optional[str]` defaulting to `"medium"`;
`created_at` is `Optional[str]` defaulting to `None`. -/
structure FeedbackOut where
  id : String
  question : String
  response : String
  improvement : String
  category : String
  severity : Option String
  created_at : Option String
deriving DecidableEq

/-- The request model `InsightRequest` (src/main.py lines 134-136):
a list of `FeedbackOut` items plus a `scope` string (default `"all"`). -/
structure InsightRequest where
  items : List FeedbackOut
  scope : String
deriving DecidableEq

/-! ## Python dictionaries as insertion-ordered association lists -/

/-- `dictIncr d k` models the Python statement
`d[k] = d.get(k, 0) + 1` on an insertion-ordered dict `d`:
the first entry with key `k` is incremented in place, and a missing key
is appended at the end with value `1`. -/
def dictIncr {κ : Type} [DecidableEq κ] : List (κ × Nat) → κ → List (κ × Nat)
  | [], k => [(k, 1)]
  | (k', v) :: rest, k =>
      if k' = k then (k', v + 1) :: rest else (k', v) :: dictIncr rest k

/-- `dictSet d k v` models the Python statement `d[k] = v` on an
insertion-ordered dict: a present key keeps its position and gets the new
value, an absent key is appended at the end. -/
def dictSet {κ : Type} [DecidableEq κ] : List (κ × Nat) → κ → Nat → List (κ × Nat)
  | [], k, v => [(k, v)]
  | (k', v') :: rest, k, v =>
      if k' = k then (k', v) :: rest else (k', v') :: dictSet rest k v

/-- The keys of a dict, in insertion order (`d.keys()`). -/
def keysOf {κ : Type} (d : List (κ × Nat)) : List κ := d.map Prod.fst

/-- `valueOf d k` models `d.get(k, 0)`. -/
def valueOf {κ : Type} [DecidableEq κ] : List (κ × Nat) → κ → Nat
  | [], _ => 0
  | (k', v) :: rest, k => if k' = k then v else valueOf rest k

/-- `sumValues d` models `sum(d.values())`. -/
def sumValues {κ : Type} (d : List (κ × Nat)) : Nat := (d.map Prod.snd).sum

/-- Folding `dictIncr` over a list of keys, starting from dict `d`:
the shape shared by the two counting loops of the program. -/
def dictCountFrom {κ : Type} [DecidableEq κ] (d : List (κ × Nat)) (ks : List κ) :
    List (κ × Nat) :=
  ks.foldl dictIncr d

/-! ## The insights summarizer (`generate_ai_insights`, lines 139-159) -/

/-- The `categories` dict of `generate_ai_insights` (lines 143-145):
`for it in req.items: categories[it.category] = categories.get(it.category, 0) + 1`. -/
def countCategories (items : List FeedbackOut) : List (String × Nat) :=
  items.foldl (fun d it => dictIncr d it.category) []

/-- The comparison used by `sorted(categories.items(), key=lambda x: x[1],
reverse=True)` (line 146): descending by count. -/
def countGE {κ : Type} (a b : κ × Nat) : Prop := b.2 ≤ a.2

instance {κ : Type} : DecidableRel (@countGE κ) :=
  fun a b => inferInstanceAs (Decidable (b.2 ≤ a.2))

instance {κ : Type} : IsTotal (κ × Nat) countGE :=
  ⟨fun a b => Nat.le_total b.2 a.2⟩

instance {κ : Type} : IsTrans (κ × Nat) countGE :=
  ⟨fun _ _ _ h1 h2 => Nat.le_trans h2 h1⟩

/-- The `top` list of `generate_ai_insights` (line 146): the category
counts, stably sorted by descending count.  Python's `sorted` with
`reverse=True` is a stable descending sort, which is exactly
`List.insertionSort countGE`. -/
def topOf (items : List FeedbackOut) : List (String × Nat) :=
  List.insertionSort countGE (countCategories items)

/-- The rendering `f"{k}: {v}"` of one counted category (line 152). -/
def renderCount (p : String × Nat) : String := p.1 ++ ": " ++ toString p.2

/-- The fixed recommendation sentence of line 155 (constant text). -/
def recommendedActions : String :=
  "Recommended actions: tighten instruction following, prefer concise answers, and ask clarifying questions when intent is ambiguous."

/-- The `summary_lines` list of `generate_ai_insights` (lines 148-155):
always the `Analyzed ...` line; then, if `top` is non-empty, the
`Most frequent issues: ...` line built from `top[:3]`; then, if
`total > 0`, the fixed recommendation sentence. -/
def summaryLines (req : InsightRequest) : List String :=
  (if topOf req.items = [] then
      ["Analyzed " ++ toString req.items.length ++ " feedback item(s)."]
    else
      ["Analyzed " ++ toString req.items.length ++ " feedback item(s).",
       "Most frequent issues: " ++
         String.intercalate ", " (((topOf req.items).take 3).map renderCount) ++ "."]) ++
  (if 0 < req.items.length then [recommendedActions] else [])

/-- `POST /api/analytics/insights` (lines 139-159): the returned
`summary` string is the summary lines joined by a single space. -/
def generate_ai_insights (req : InsightRequest) : String :=
  String.intercalate " " (summaryLines req)

/-- A feedback item with the given category (the other fields are
irrelevant to the summarizer, which reads only `category`). -/
def itemWith (c : String) : FeedbackOut :=
  ⟨"1", "q", "r", "i", c, some "medium", none⟩

/-! ## Sanity theorems for the summarizer -/

/-- C4: the insights summarizer is a total function (it is a plain Lean
`def`, so it never fails), and on the empty item list it produces the
single line `"Analyzed 0 feedback item(s)."` — no `Most frequent issues`
line and no recommendation sentence. -/
theorem insights_empty (req : InsightRequest) (h : req.items = []) :
    summaryLines req = ["Analyzed 0 feedback item(s)."] ∧
    generate_ai_insights req = "Analyzed 0 feedback item(s)." := by
  obtain ⟨items, scope⟩ := req
  replace h : items = [] := h
  subst h
  refine ⟨?_, ?_⟩
  · exact (by decide : summaryLines ⟨[], "all"⟩ = ["Analyzed 0 feedback item(s)."])
  · exact (by decide : generate_ai_insights ⟨[], "all"⟩ = "Analyzed 0 feedback item(s).")

/-- Witness for C4: the theorem applied to the concrete empty request. -/
theorem insights_empty_witness :
    summaryLines ⟨[], "all"⟩ = ["Analyzed 0 feedback item(s)."] ∧
    generate_ai_insights ⟨[], "all"⟩ = "Analyzed 0 feedback item(s)." :=
  insights_empty ⟨[], "all"⟩ rfl

set_option maxRecDepth 8192 in
/-- C5: on `[{category:"tone"}, {category:"tone"}, {category:"accuracy"}]`
the summarizer reports a total of 3, renders the top list as
`"tone: 2, accuracy: 1"`, and appends the fixed recommendation sentence. -/
theorem insights_example :
    generate_ai_insights ⟨[itemWith "tone", itemWith "tone", itemWith "accuracy"], "all"⟩ =
      "Analyzed 3 feedback item(s). Most frequent issues: tone: 2, accuracy: 1. " ++
        recommendedActions := by
  decide

/-- C6: the `scope` field of the request has no effect on the output:
for any item list and any two scope values the summarizer produces the
same text (two-run noninterference over `scope`). -/
theorem insights_scope_noninterference (items : List FeedbackOut) (scope₁ scope₂ : String) :
    generate_ai_insights ⟨items, scope₁⟩ = generate_ai_insights ⟨items, scope₂⟩ :=
  rfl

/-! ## Dictionary lemmas -/

theorem valueOf_dictIncr {κ : Type} [DecidableEq κ] (d : List (κ × Nat)) (k k' : κ) :
    valueOf (dictIncr d k) k' = valueOf d k' + (if k = k' then 1 else 0) := by
  induction d with
  | nil => simp only [dictIncr, valueOf]; split_ifs <;> simp
  | cons a rest ih =>
    obtain ⟨a1, a2⟩ := a
    by_cases h : a1 = k
    · subst h
      simp only [dictIncr, if_pos rfl, valueOf]
      split_ifs with h' <;> simp [h']
    · simp only [dictIncr, if_neg h, valueOf]
      by_cases h' : a1 = k'
      · rw [if_pos h', if_pos h', if_neg (fun hk => h (h'.trans hk.symm)), Nat.add_zero]
      · rw [if_neg h', if_neg h', ih]

theorem keysOf_dictIncr {κ : Type} [DecidableEq κ] (d : List (κ × Nat)) (k : κ) :
    keysOf (dictIncr d k) = if k ∈ keysOf d then keysOf d else keysOf d ++ [k] := by
  induction d with
  | nil => simp [dictIncr, keysOf]
  | cons a rest ih =>
    obtain ⟨a1, a2⟩ := a
    by_cases h : a1 = k
    · subst h
      simp [dictIncr, keysOf]
    · simp only [dictIncr, if_neg h, keysOf, List.map_cons] at ih ⊢
      rw [ih]
      by_cases hk : k ∈ rest.map Prod.fst
      · simp [hk, Ne.symm h]
      · simp [hk, Ne.symm h]

theorem mem_keysOf_dictIncr {κ : Type} [DecidableEq κ] (d : List (κ × Nat)) (k k' : κ) :
    k' ∈ keysOf (dictIncr d k) ↔ k' ∈ keysOf d ∨ k' = k := by
  rw [keysOf_dictIncr]
  split_ifs with h
  · constructor
    · exact Or.inl
    · rintro (h' | rfl)
      · exact h'
      · exact h
  · simp

theorem nodup_keysOf_dictIncr {κ : Type} [DecidableEq κ] (d : List (κ × Nat)) (k : κ)
    (hd : (keysOf d).Nodup) : (keysOf (dictIncr d k)).Nodup := by
  rw [keysOf_dictIncr]
  split_ifs with h
  · exact hd
  · simp [List.nodup_append, hd, h]

theorem sumValues_dictIncr {κ : Type} [DecidableEq κ] (d : List (κ × Nat)) (k : κ) :
    sumValues (dictIncr d k) = sumValues d + 1 := by
  induction d with
  | nil => simp [dictIncr, sumValues]
  | cons a rest ih =>
    obtain ⟨a1, a2⟩ := a
    by_cases h : a1 = k
    · subst h; simp [dictIncr, sumValues]; omega
    · simp [dictIncr, if_neg h, sumValues] at ih ⊢; omega

theorem valueOf_dictCountFrom {κ : Type} [DecidableEq κ] (ks : List κ)
    (d : List (κ × Nat)) (k : κ) :
    valueOf (dictCountFrom d ks) k = valueOf d k + ks.count k := by
  induction ks generalizing d with
  | nil => simp [dictCountFrom]
  | cons a t ih =>
    simp only [dictCountFrom, List.foldl_cons] at ih ⊢
    rw [ih (dictIncr d a), valueOf_dictIncr, List.count_cons]
    simp only [beq_iff_eq]
    split_ifs with h
    · omega
    · omega

theorem mem_keysOf_dictCountFrom {κ : Type} [DecidableEq κ] (ks : List κ)
    (d : List (κ × Nat)) (k : κ) :
    k ∈ keysOf (dictCountFrom d ks) ↔ k ∈ keysOf d ∨ k ∈ ks := by
  induction ks generalizing d with
  | nil => simp [dictCountFrom]
  | cons a t ih =>
    simp only [dictCountFrom, List.foldl_cons] at ih ⊢
    rw [ih (dictIncr d a), mem_keysOf_dictIncr]
    simp only [List.mem_cons]
    tauto

theorem nodup_keysOf_dictCountFrom {κ : Type} [DecidableEq κ] (ks : List κ)
    (d : List (κ × Nat)) (hd : (keysOf d).Nodup) :
    (keysOf (dictCountFrom d ks)).Nodup := by
  induction ks generalizing d with
  | nil => simpa [dictCountFrom] using hd
  | cons a t ih =>
    simp only [dictCountFrom, List.foldl_cons] at ih ⊢
    exact ih (dictIncr d a) (nodup_keysOf_dictIncr d a hd)

theorem sumValues_dictCountFrom {κ : Type} [DecidableEq κ] (ks : List κ)
    (d : List (κ × Nat)) :
    sumValues (dictCountFrom d ks) = sumValues d + ks.length := by
  induction ks generalizing d with
  | nil => simp [dictCountFrom]
  | cons a t ih =>
    simp only [dictCountFrom, List.foldl_cons, List.length_cons] at ih ⊢
    rw [ih (dictIncr d a), sumValues_dictIncr]
    omega

theorem valueOf_of_mem_nodup {κ : Type} [DecidableEq κ] (d : List (κ × Nat))
    (p : κ × Nat) (hp : p ∈ d) (hd : (keysOf d).Nodup) : valueOf d p.1 = p.2 := by
  induction d with
  | nil => cases hp
  | cons a rest ih =>
    simp only [keysOf, List.map_cons, List.nodup_cons] at hd
    rcases List.mem_cons.1 hp with rfl | hmem
    · simp [valueOf]
    · have hne : a.1 ≠ p.1 := by
        intro hcontra
        exact hd.1 (hcontra ▸ List.mem_map_of_mem Prod.fst hmem)
      obtain ⟨a1, a2⟩ := a
      simp only [valueOf, if_neg hne]
      exact ih hmem hd.2

/-! ## Counting lemmas for the summarizer -/

/-- The number of items of `items` whose `category` field equals `c`
(the count of `c` among the item categories). -/
def countItemCat (items : List FeedbackOut) (c : String) : Nat :=
  (items.map FeedbackOut.category).count c

theorem countCategories_eq (items : List FeedbackOut) :
    countCategories items = dictCountFrom [] (items.map FeedbackOut.category) := by
  simp [countCategories, dictCountFrom, List.foldl_map]

theorem valueOf_countCategories (items : List FeedbackOut) (c : String) :
    valueOf (countCategories items) c = countItemCat items c := by
  rw [countCategories_eq, valueOf_dictCountFrom, countItemCat]
  simp [valueOf]

theorem mem_keysOf_countCategories (items : List FeedbackOut) (c : String) :
    c ∈ keysOf (countCategories items) ↔ c ∈ items.map FeedbackOut.category := by
  rw [countCategories_eq, mem_keysOf_dictCountFrom]
  simp [keysOf]

theorem nodup_keysOf_countCategories (items : List FeedbackOut) :
    (keysOf (countCategories items)).Nodup := by
  rw [countCategories_eq]
  exact nodup_keysOf_dictCountFrom _ _ (by simp [keysOf])

theorem topOf_perm (items : List FeedbackOut) :
    List.Perm (topOf items) (countCategories items) :=
  List.perm_insertionSort countGE (countCategories items)

theorem mem_keysOf_topOf (items : List FeedbackOut) (c : String) :
    c ∈ keysOf (topOf items) ↔ c ∈ items.map FeedbackOut.category := by
  rw [← mem_keysOf_countCategories]
  exact ((topOf_perm items).map Prod.fst).mem_iff

theorem nodup_keysOf_topOf (items : List FeedbackOut) :
    (keysOf (topOf items)).Nodup :=
  ((topOf_perm items).map Prod.fst).nodup_iff.2 (nodup_keysOf_countCategories items)

/-! ## The `Most frequent issues` line (claim C3) -/

/-- C3: for every request with a non-empty item list, the summary consists
of exactly the `Analyzed ...` line, a `Most frequent issues: ...` line
rendering the first three entries of the ranking `topOf`, and the
recommendation line; the ranking is sorted by descending count, each of
its entries pairs a category with its count over the items, its keys are
exactly the distinct categories occurring in the items (with no
duplicates), and the rendered portion has `min 3 (number of distinct
categories)` entries.  Since `category` is a required string field, "the
item list has no categories at all" happens exactly for the empty list,
and then (second conjunct) the summary is the single `Analyzed` line —
no `Most frequent issues` line. -/
theorem insights_top_line (req : InsightRequest) :
    (req.items ≠ [] →
      summaryLines req =
        ["Analyzed " ++ toString req.items.length ++ " feedback item(s).",
         "Most frequent issues: " ++
           String.intercalate ", " (((topOf req.items).take 3).map renderCount) ++ ".",
         recommendedActions] ∧
      List.Sorted countGE (topOf req.items) ∧
      (∀ p ∈ topOf req.items, p.2 = countItemCat req.items p.1) ∧
      (∀ c : String, c ∈ keysOf (topOf req.items) ↔ c ∈ req.items.map FeedbackOut.category) ∧
      (keysOf (topOf req.items)).Nodup ∧
      ((topOf req.items).take 3).length = min 3 (topOf req.items).length) ∧
    (req.items = [] → summaryLines req = ["Analyzed 0 feedback item(s)."]) := by
  have hempty : req.items = [] → summaryLines req = ["Analyzed 0 feedback item(s)."] := by
    obtain ⟨items, scope⟩ := req
    intro h
    replace h : items = [] := h
    subst h
    exact (by decide : summaryLines ⟨[], "all"⟩ = ["Analyzed 0 feedback item(s)."])
  refine ⟨fun h => ?_, hempty⟩
  have htop : topOf req.items ≠ [] := by
    intro htop
    obtain ⟨a, t, hat⟩ := List.exists_cons_of_ne_nil h
    have hmem : a.category ∈ keysOf (countCategories req.items) :=
      (mem_keysOf_countCategories _ _).2 (by rw [hat]; simp)
    have hnil : countCategories req.items = [] := by
      have hp := topOf_perm req.items
      rw [htop] at hp
      exact List.nil_perm.1 hp
    rw [hnil] at hmem
    simp [keysOf] at hmem
  refine ⟨?_, ?_, ?_, mem_keysOf_topOf req.items, nodup_keysOf_topOf req.items, ?_⟩
  · have hlen : 0 < req.items.length := List.length_pos.2 h
    simp [summaryLines, htop, hlen]
  · exact List.sorted_insertionSort countGE (countCategories req.items)
  · intro p hp
    have hmem : p ∈ countCategories req.items := (topOf_perm req.items).subset hp
    rw [← valueOf_countCategories req.items p.1]
    exact (valueOf_of_mem_nodup _ p hmem (nodup_keysOf_countCategories req.items)).symm
  · exact List.length_take 3 (topOf req.items)

/-- Witness for C3: the theorem applied to the concrete request of three
items (`tone`, `tone`, `accuracy`), first conjunct, with the rendering
evaluated. -/
theorem insights_top_line_witness :
    summaryLines ⟨[itemWith "tone", itemWith "tone", itemWith "accuracy"], "all"⟩ =
      ["Analyzed 3 feedback item(s).", "Most frequent issues: tone: 2, accuracy: 1.",
       recommendedActions] ∧
    summaryLines ⟨[], "week"⟩ = ["Analyzed 0 feedback item(s)."] := by
  constructor
  · have h :=
      ((insights_top_line ⟨[itemWith "tone", itemWith "tone", itemWith "accuracy"],
        "all"⟩).1 (by decide)).1
    rw [h]
    decide
  · exact (insights_top_line ⟨[], "week"⟩).2 rfl

/-! ## Stable tie-breaking in the ranking (claim C10)

A Python dict lists its keys in first-insertion order, and Python's
`sorted` is stable, so categories with equal counts stay in
first-encounter order.  We prove this through three steps: the keys of
the counting dict are the first-occurrence deduplication of the category
list; a pair of keys in that order is a sublist of the dict; and
`insertionSort` keeps sorted sublists (`pair_sublist_insertionSort`). -/

/-- First-occurrence deduplication of a list: the key order of a Python
dict built by counting the list's elements in order. -/
def firstDedup {κ : Type} [DecidableEq κ] : List κ → List κ
  | [] => []
  | k :: ks => k :: (firstDedup ks).filter (fun x => decide (x ≠ k))

theorem mem_firstDedup {κ : Type} [DecidableEq κ] (l : List κ) (x : κ) :
    x ∈ firstDedup l ↔ x ∈ l := by
  induction l with
  | nil => simp [firstDedup]
  | cons k ks ih =>
    by_cases hx : x = k
    · subst hx; simp [firstDedup]
    · simp [firstDedup, List.mem_filter, ih, hx]

theorem keysOf_dictCountFrom_eq {κ : Type} [DecidableEq κ] (ks : List κ)
    (d : List (κ × Nat)) :
    keysOf (dictCountFrom d ks) =
      keysOf d ++ (firstDedup ks).filter (fun x => decide (x ∉ keysOf d)) := by
  induction ks generalizing d with
  | nil => simp [dictCountFrom, firstDedup]
  | cons k ks ih =>
    simp only [dictCountFrom, List.foldl_cons] at ih ⊢
    rw [ih (dictIncr d k), keysOf_dictIncr, firstDedup]
    by_cases hk : k ∈ keysOf d
    · rw [if_pos hk]
      congr 1
      rw [List.filter_cons, if_neg (by simp [hk]), List.filter_filter]
      refine (List.filter_congr ?_).symm
      intro x _
      by_cases hxk : x = k
      · subst hxk; simp [hk]
      · simp [hxk]
    · rw [if_neg hk, List.filter_cons, if_pos (by simp [hk]), List.append_assoc,
        List.singleton_append]
      congr 1
      rw [List.filter_filter]
      congr 1
      refine List.filter_congr ?_
      intro x _
      by_cases hxk : x = k
      · subst hxk; simp
      · by_cases hxd : x ∈ keysOf d <;> simp [hxk, hxd]

theorem keysOf_dictCount {κ : Type} [DecidableEq κ] (ks : List κ) :
    keysOf (dictCountFrom [] ks) = firstDedup ks := by
  rw [keysOf_dictCountFrom_eq]
  simp [keysOf]

theorem pair_sublist_firstDedup {κ : Type} [DecidableEq κ] (l : List κ) (c1 c2 : κ)
    (h2 : c2 ∈ l) (hlt : l.indexOf c1 < l.indexOf c2) :
    [c1, c2] <+ firstDedup l := by
  induction l with
  | nil => cases h2
  | cons k ks ih =>
    have hc2k : c2 ≠ k := by
      intro hc
      subst hc
      rw [List.indexOf_cons_self] at hlt
      omega
    have h2' : c2 ∈ ks := by
      rcases List.mem_cons.1 h2 with h | h
      · exact absurd h hc2k
      · exact h
    by_cases hc1k : c1 = k
    · subst hc1k
      rw [firstDedup]
      refine List.cons_sublist_cons.2 ?_
      rw [List.singleton_sublist, List.mem_filter]
      exact ⟨(mem_firstDedup ks c2).2 h2', by simpa using hc2k⟩
    · have hlt' : ks.indexOf c1 < ks.indexOf c2 := by
        rw [List.indexOf_cons_ne _ (Ne.symm hc1k), List.indexOf_cons_ne _ (Ne.symm hc2k)]
          at hlt
        omega
      have hsub := ih h2' hlt'
      have hfil : [c1, c2] <+ (firstDedup ks).filter (fun x => decide (x ≠ k)) := by
        have h' := hsub.filter (fun x => decide (x ≠ k))
        rwa [show [c1, c2].filter (fun x => decide (x ≠ k)) = [c1, c2] from by
          simp [hc1k, hc2k]] at h'
      rw [firstDedup]
      exact hfil.cons k

theorem valueOf_mem {κ : Type} [DecidableEq κ] (d : List (κ × Nat)) (k : κ)
    (hk : k ∈ keysOf d) : (k, valueOf d k) ∈ d := by
  induction d with
  | nil => simp [keysOf] at hk
  | cons a rest ih =>
    obtain ⟨a1, a2⟩ := a
    by_cases h : a1 = k
    · subst h
      simp [valueOf]
    · simp only [keysOf, List.map_cons, List.mem_cons] at hk
      rcases hk with rfl | hk
      · exact absurd rfl h
      · have hmem := ih hk
        simp only [valueOf, if_neg h]
        exact List.mem_cons_of_mem _ hmem

theorem pair_entry_sublist {κ : Type} [DecidableEq κ] (d : List (κ × Nat)) (c1 c2 : κ)
    (hd : (keysOf d).Nodup) (hsub : [c1, c2] <+ keysOf d) :
    [(c1, valueOf d c1), (c2, valueOf d c2)] <+ d := by
  induction d with
  | nil => simp [keysOf] at hsub
  | cons a rest ih =>
    obtain ⟨a1, a2⟩ := a
    simp only [keysOf, List.map_cons, List.nodup_cons] at hd hsub
    cases hsub with
    | cons _ h =>
      have hc1 : c1 ∈ keysOf rest := h.subset (by simp)
      have hc2 : c2 ∈ keysOf rest := h.subset (by simp)
      have hne1 : ¬ a1 = c1 := fun hc => hd.1 (hc ▸ hc1)
      have hne2 : ¬ a1 = c2 := fun hc => hd.1 (hc ▸ hc2)
      simp only [valueOf, if_neg hne1, if_neg hne2]
      exact (ih hd.2 h).cons (a1, a2)
    | cons₂ _ h =>
      have hc2 : c2 ∈ keysOf rest := List.singleton_sublist.1 h
      have hne2 : ¬ c1 = c2 := fun hc => hd.1 (by rw [hc]; exact hc2)
      rw [show valueOf ((c1, a2) :: rest) c1 = a2 from by simp [valueOf],
        show valueOf ((c1, a2) :: rest) c2 = valueOf rest c2 from by simp [valueOf, hne2]]
      refine List.cons_sublist_cons.2 ?_
      rw [List.singleton_sublist]
      exact valueOf_mem rest c2 hc2

/-- C10: the summarizer is a deterministic function of the item sequence
(`scope` aside, two requests with the same items give the same text), and
the ranking `topOf` breaks count ties by first-encounter order: if `c1`
and `c2` both occur with count `n` and the first occurrence of `c1` in
the item list precedes that of `c2`, then the entry of `c1` immediately
precedes-or-earlier that of `c2` in the ranking (the pair is a sublist of
`topOf`), hence `c1` is listed first in the rendered line. -/
theorem insights_stable_ranking :
    (∀ req₁ req₂ : InsightRequest, req₁.items = req₂.items →
        generate_ai_insights req₁ = generate_ai_insights req₂) ∧
    (∀ (items : List FeedbackOut) (c1 c2 : String) (n : Nat),
        c2 ∈ items.map FeedbackOut.category →
        (items.map FeedbackOut.category).indexOf c1 <
          (items.map FeedbackOut.category).indexOf c2 →
        countItemCat items c1 = n → countItemCat items c2 = n →
        [(c1, n), (c2, n)] <+ topOf items) := by
  constructor
  · intro r1 r2 h
    obtain ⟨i1, s1⟩ := r1
    obtain ⟨i2, s2⟩ := r2
    replace h : i1 = i2 := h
    subst h
    rfl
  · intro items c1 c2 n h2 hlt hn1 hn2
    have hkeys : [c1, c2] <+ keysOf (countCategories items) := by
      rw [countCategories_eq, keysOf_dictCount]
      exact pair_sublist_firstDedup _ c1 c2 h2 hlt
    have hpair := pair_entry_sublist (countCategories items) c1 c2
      (nodup_keysOf_countCategories items) hkeys
    rw [valueOf_countCategories, valueOf_countCategories, hn1, hn2] at hpair
    exact List.pair_sublist_insertionSort (Nat.le_refl n) hpair

/-- Witness for C10: the theorem applied to concrete inputs — two
requests sharing an item list, and a two-item list where `beta` and
`alpha` tie with count 1 and `beta` occurs first. -/
theorem insights_stable_ranking_witness :
    generate_ai_insights ⟨[], "week"⟩ = generate_ai_insights ⟨[], "all"⟩ ∧
    [("beta", 1), ("alpha", 1)] <+ topOf [itemWith "beta", itemWith "alpha"] :=
  ⟨insights_stable_ranking.1 ⟨[], "week"⟩ ⟨[], "all"⟩ rfl,
   insights_stable_ranking.2 [itemWith "beta", itemWith "alpha"] "beta" "alpha" 1
     (by decide) (by decide) (by decide) (by decide)⟩

/-! ## `dictSet` lemmas -/

theorem dictSet_of_not_mem {κ : Type} [DecidableEq κ] (b : List (κ × Nat)) (k : κ)
    (v : Nat) (hk : k ∉ keysOf b) : dictSet b k v = b ++ [(k, v)] := by
  induction b with
  | nil => simp [dictSet]
  | cons a rest ih =>
    obtain ⟨a1, a2⟩ := a
    simp only [keysOf, List.map_cons, List.mem_cons, not_or] at hk
    have hne : ¬ a1 = k := fun h => hk.1 h.symm
    simp only [dictSet, if_neg hne, List.cons_append]
    rw [ih hk.2]

theorem keysOf_dictSet {κ : Type} [DecidableEq κ] (b : List (κ × Nat)) (k : κ) (v : Nat) :
    keysOf (dictSet b k v) = if k ∈ keysOf b then keysOf b else keysOf b ++ [k] := by
  induction b with
  | nil => simp [dictSet, keysOf]
  | cons a rest ih =>
    obtain ⟨a1, a2⟩ := a
    by_cases h : a1 = k
    · subst h
      simp [dictSet, keysOf]
    · simp only [dictSet, if_neg h, keysOf, List.map_cons] at ih ⊢
      rw [ih]
      by_cases hk : k ∈ rest.map Prod.fst
      · simp [hk, Ne.symm h]
      · simp [hk, Ne.symm h]

/-- The fold of a Python dict comprehension `{f(x): g(x) for x in l}`
after the key/value pairs have been computed: successive `dictSet`s. -/
def dictSetFold {κ : Type} [DecidableEq κ] (b : List (κ × Nat)) (l : List (κ × Nat)) :
    List (κ × Nat) :=
  l.foldl (fun b p => dictSet b p.1 p.2) b

theorem mem_keysOf_dictSetFold {κ : Type} [DecidableEq κ] (l : List (κ × Nat))
    (b : List (κ × Nat)) (k : κ) :
    k ∈ keysOf (dictSetFold b l) ↔ k ∈ keysOf b ∨ k ∈ keysOf l := by
  induction l generalizing b with
  | nil => simp [dictSetFold, keysOf]
  | cons p t ih =>
    simp only [dictSetFold, List.foldl_cons] at ih ⊢
    rw [ih (dictSet b p.1 p.2)]
    have : k ∈ keysOf (dictSet b p.1 p.2) ↔ k ∈ keysOf b ∨ k = p.1 := by
      rw [keysOf_dictSet]
      split_ifs with h
      · constructor
        · exact Or.inl
        · rintro (h' | rfl)
          · exact h'
          · exact h
      · simp
    rw [this]
    simp only [keysOf, List.map_cons, List.mem_cons]
    tauto

theorem sumValues_dictSetFold {κ : Type} [DecidableEq κ] (l : List (κ × Nat))
    (b : List (κ × Nat)) (hn : (keysOf l).Nodup) (hdis : ∀ k ∈ keysOf l, k ∉ keysOf b) :
    sumValues (dictSetFold b l) = sumValues b + sumValues l := by
  induction l generalizing b with
  | nil => simp [dictSetFold, sumValues]
  | cons p t ih =>
    simp only [keysOf, List.map_cons, List.nodup_cons] at hn
    have hp : p.1 ∉ keysOf b := hdis p.1 (by simp [keysOf])
    have hdisb : ∀ k ∈ keysOf t, k ∉ keysOf b := fun k hk =>
      hdis k (by simp only [keysOf, List.map_cons, List.mem_cons]; exact Or.inr hk)
    simp only [dictSetFold, List.foldl_cons]
    rw [dictSet_of_not_mem b p.1 p.2 hp]
    have hdis' : ∀ k ∈ keysOf t, k ∉ keysOf (b ++ [(p.1, p.2)]) := by
      intro k hk hmem
      rw [keysOf, List.map_append] at hmem
      rcases List.mem_append.1 hmem with hmb | hmp
      · exact hdisb k hk hmb
      · have hkp : k = p.1 := by simpa using hmp
        exact hn.1 (hkp ▸ hk)
    have hrec := ih (b ++ [(p.1, p.2)]) hn.2 hdis'
    simp only [dictSetFold] at hrec
    rw [hrec]
    simp only [sumValues, List.map_append, List.sum_append, List.map_cons, List.sum_cons,
      List.map_nil, List.sum_nil]
    omega

/-! ## The aggregation endpoint (`analytics_summary`, lines 117-131) -/

/-- A document stored in the `feedback` Mongo collection.  The collection
is schemaless; the aggregation pipeline and the category filter read only
the `category` field, so a document is modelled by that field alone.
`none` models a document whose `category` is null or missing (both group
under `_id = null` in `$group`). -/
structure StoredDoc where
  category : Option String
deriving DecidableEq

/-- The `$group` stage `{"$group": {"_id": "$category", "count": {"$sum": 1}}}`
(line 122): one `(category value, count)` group per distinct category
value, in first-encounter order. -/
def mongoGroup (docs : List StoredDoc) : List (Option String × Nat) :=
  docs.foldl (fun g d => dictIncr g d.category) []

/-- The `$sort` stage `{"$sort": {"count": -1}}` (line 123): the groups
sorted by descending count (modelled as a stable sort; no property below
depends on the order of equal counts). -/
def aggregatePipeline (docs : List StoredDoc) : List (Option String × Nat) :=
  List.insertionSort countGE (mongoGroup docs)

/-- Python `item["_id"] or "Unknown"` (line 127): `or` yields its right
operand when the left one is falsy, and the falsy values the `_id` can
take here are `None` and the empty string. -/
def pyOrUnknown : Option String → String
  | none => "Unknown"
  | some s => if s = "" then "Unknown" else s

/-- The dict comprehension
`{item["_id"] or "Unknown": item["count"] for item in agg}` (line 127):
entries assigned in pipeline order; a repeated key keeps its first
position and takes the last assigned value. -/
def breakdownOf (docs : List StoredDoc) : List (String × Nat) :=
  (aggregatePipeline docs).foldl (fun b g => dictSet b (pyOrUnknown g.1) g.2) []

/-- `total = sum(breakdown.values())` (line 128). -/
def totalOf (docs : List StoredDoc) : Nat := sumValues (breakdownOf docs)

/-- `GET /api/analytics/summary` (lines 117-131): HTTP 500 with detail
`"Database not configured"` when the database handle is `None`, otherwise
the total and the breakdown.  (The `try/except` around the pipeline
surfaces storage errors as HTTP 500; the modelled aggregation itself
cannot fail.) -/
def analytics_summary (db : Option (List StoredDoc)) :
    Except (Nat × String) (Nat × List (String × Nat)) :=
  match db with
  | none => Except.error (500, "Database not configured")
  | some docs => Except.ok (totalOf docs, breakdownOf docs)

theorem mongoGroup_eq (docs : List StoredDoc) :
    mongoGroup docs = dictCountFrom [] (docs.map StoredDoc.category) := by
  simp [mongoGroup, dictCountFrom, List.foldl_map]

theorem breakdownOf_eq (docs : List StoredDoc) :
    breakdownOf docs =
      dictSetFold [] ((aggregatePipeline docs).map (fun g => (pyOrUnknown g.1, g.2))) := by
  simp [breakdownOf, dictSetFold, List.foldl_map]

theorem mem_keysOf_mongoGroup (docs : List StoredDoc) (k : Option String) :
    k ∈ keysOf (mongoGroup docs) ↔ k ∈ docs.map StoredDoc.category := by
  rw [mongoGroup_eq, mem_keysOf_dictCountFrom]
  simp [keysOf]

theorem nodup_keysOf_mongoGroup (docs : List StoredDoc) :
    (keysOf (mongoGroup docs)).Nodup := by
  rw [mongoGroup_eq]
  exact nodup_keysOf_dictCountFrom _ _ (by simp [keysOf])

theorem aggregatePipeline_perm (docs : List StoredDoc) :
    List.Perm (aggregatePipeline docs) (mongoGroup docs) :=
  List.perm_insertionSort countGE (mongoGroup docs)

theorem mem_keysOf_aggregatePipeline (docs : List StoredDoc) (k : Option String) :
    k ∈ keysOf (aggregatePipeline docs) ↔ k ∈ docs.map StoredDoc.category := by
  rw [← mem_keysOf_mongoGroup]
  exact ((aggregatePipeline_perm docs).map Prod.fst).mem_iff

theorem keysOf_map_label (docs : List StoredDoc) :
    keysOf ((aggregatePipeline docs).map (fun g => (pyOrUnknown g.1, g.2))) =
      (keysOf (aggregatePipeline docs)).map pyOrUnknown := by
  simp only [keysOf, List.map_map]
  rfl

theorem mem_keysOf_breakdownOf (docs : List StoredDoc) (k : String) :
    k ∈ keysOf (breakdownOf docs) ↔
      ∃ c, c ∈ docs.map StoredDoc.category ∧ pyOrUnknown c = k := by
  rw [breakdownOf_eq, mem_keysOf_dictSetFold, keysOf_map_label]
  constructor
  · rintro (h | h)
    · simp [keysOf] at h
    · obtain ⟨c, hc, rfl⟩ := List.mem_map.1 h
      exact ⟨c, (mem_keysOf_aggregatePipeline docs c).1 hc, rfl⟩
  · rintro ⟨c, hc, rfl⟩
    exact Or.inr (List.mem_map.2 ⟨c, (mem_keysOf_aggregatePipeline docs c).2 hc, rfl⟩)

/-- C1 (amended): `total` always equals the sum of the `breakdown` values
(that is its definition, line 128); and it equals the number of records
in the collection provided every record's category is a non-null,
non-empty string — in general two distinct groups can collapse onto the
same dict key (null or `""` relabelled `"Unknown"` versus the literal
category `"Unknown"`), and then `total` undercounts the records. -/
theorem summary_total (docs : List StoredDoc) :
    totalOf docs = sumValues (breakdownOf docs) ∧
    ((∀ d ∈ docs, d.category ≠ none ∧ d.category ≠ some "") →
        totalOf docs = docs.length) := by
  refine ⟨rfl, fun hall => ?_⟩
  have hgroup : sumValues (mongoGroup docs) = docs.length := by
    rw [mongoGroup_eq, sumValues_dictCountFrom]
    simp [sumValues]
  have hsum_agg : sumValues (aggregatePipeline docs) = sumValues (mongoGroup docs) :=
    ((aggregatePipeline_perm docs).map Prod.snd).sum_eq
  have hcat : ∀ k ∈ keysOf (aggregatePipeline docs), ∃ s, k = some s ∧ s ≠ "" := by
    intro k hk
    have hk' := (mem_keysOf_aggregatePipeline docs k).1 hk
    obtain ⟨d, hd, rfl⟩ := List.mem_map.1 hk'
    obtain ⟨h1, h2⟩ := hall d hd
    cases hc : d.category with
    | none => exact absurd hc h1
    | some s =>
      refine ⟨s, rfl, fun hs => h2 ?_⟩
      rw [hc, hs]
  have hnodup_agg : (keysOf (aggregatePipeline docs)).Nodup :=
    ((aggregatePipeline_perm docs).map Prod.fst).nodup_iff.2 (nodup_keysOf_mongoGroup docs)
  have hnodup_lab : ((keysOf (aggregatePipeline docs)).map pyOrUnknown).Nodup := by
    refine hnodup_agg.map_on ?_
    intro x hx y hy hxy
    obtain ⟨s, rfl, hs⟩ := hcat x hx
    obtain ⟨t, rfl, ht⟩ := hcat y hy
    simp only [pyOrUnknown, if_neg hs, if_neg ht] at hxy
    rw [hxy]
  have hsum_fold : sumValues (breakdownOf docs) =
      sumValues ((aggregatePipeline docs).map (fun g => (pyOrUnknown g.1, g.2))) := by
    rw [breakdownOf_eq]
    have h0 : (keysOf ((aggregatePipeline docs).map
        (fun g => (pyOrUnknown g.1, g.2)))).Nodup := by
      rw [keysOf_map_label]
      exact hnodup_lab
    rw [sumValues_dictSetFold _ ([] : List (String × Nat)) h0 (by simp [keysOf])]
    simp [sumValues]
  have hsnd : sumValues ((aggregatePipeline docs).map (fun g => (pyOrUnknown g.1, g.2))) =
      sumValues (aggregatePipeline docs) := by
    simp only [sumValues, List.map_map]
    rfl
  show sumValues (breakdownOf docs) = docs.length
  rw [hsum_fold, hsnd, hsum_agg, hgroup]

/-- C1 counterexample: with one null-category record and one record whose
category is the literal string `"Unknown"`, the two aggregation groups
collapse onto the single dict key `"Unknown"`, so `total` is 1 while the
collection holds 2 records. -/
theorem summary_total_counterexample :
    analytics_summary (some [⟨none⟩, ⟨some "Unknown"⟩]) =
      Except.ok (1, [("Unknown", 1)]) ∧
    totalOf [⟨none⟩, ⟨some "Unknown"⟩] ≠
      ([(⟨none⟩ : StoredDoc), ⟨some "Unknown"⟩]).length :=
  ⟨rfl, by decide⟩

/-- Witness for C1: the amended theorem applied to a concrete collection
whose categories are all non-null and non-empty. -/
theorem summary_total_witness :
    totalOf [⟨some "tone"⟩, ⟨some "tone"⟩, ⟨some "accuracy"⟩] =
      ([(⟨some "tone"⟩ : StoredDoc), ⟨some "tone"⟩, ⟨some "accuracy"⟩]).length :=
  (summary_total [⟨some "tone"⟩, ⟨some "tone"⟩, ⟨some "accuracy"⟩]).2 (by decide)

/-- C2 (amended): in the breakdown, a group with a null/missing category
appears under the literal label `"Unknown"`, and — because Python's `or`
treats the empty string as falsy — so does a group whose category is the
empty string; every group with a present, non-null, **non-empty** label
appears under that label verbatim; and every key of the breakdown is
either `"Unknown"` or a category present in the collection. -/
theorem breakdown_labels (docs : List StoredDoc) :
    ((∃ d ∈ docs, d.category = none) → "Unknown" ∈ keysOf (breakdownOf docs)) ∧
    ((∃ d ∈ docs, d.category = some "") → "Unknown" ∈ keysOf (breakdownOf docs)) ∧
    (∀ s : String, s ≠ "" → (∃ d ∈ docs, d.category = some s) →
        s ∈ keysOf (breakdownOf docs)) ∧
    (∀ k ∈ keysOf (breakdownOf docs),
        k = "Unknown" ∨ ∃ d ∈ docs, d.category = some k) := by
  refine ⟨?_, ?_, ?_, ?_⟩
  · rintro ⟨d, hd, hcat⟩
    exact (mem_keysOf_breakdownOf docs _).2 ⟨none, List.mem_map.2 ⟨d, hd, hcat⟩, rfl⟩
  · rintro ⟨d, hd, hcat⟩
    exact (mem_keysOf_breakdownOf docs _).2
      ⟨some "", List.mem_map.2 ⟨d, hd, hcat⟩, by decide⟩
  · rintro s hs ⟨d, hd, hcat⟩
    refine (mem_keysOf_breakdownOf docs _).2
      ⟨some s, List.mem_map.2 ⟨d, hd, hcat⟩, ?_⟩
    simp [pyOrUnknown, hs]
  · intro k hk
    obtain ⟨c, hc, rfl⟩ := (mem_keysOf_breakdownOf docs _).1 hk
    cases c with
    | none => exact Or.inl rfl
    | some s =>
      by_cases hse : s = ""
      · subst hse
        exact Or.inl (by decide)
      · right
        obtain ⟨d, hd, hcat⟩ := List.mem_map.1 hc
        have hpy : pyOrUnknown (some s) = s := by simp [pyOrUnknown, hse]
        rw [hpy]
        exact ⟨d, hd, hcat⟩

/-- C2 counterexample: a group whose category is the *present, non-null*
empty string is nevertheless relabelled `"Unknown"` (Python `or` treats
`""` as falsy), so it does not appear under its own label verbatim. -/
theorem breakdown_labels_counterexample :
    breakdownOf [⟨some ""⟩] = [("Unknown", 1)] ∧
    "" ∉ keysOf (breakdownOf [⟨some ""⟩]) :=
  ⟨by decide, by decide⟩

/-- Witness for C2: the amended theorem applied to a concrete collection
with one null-category record and one `"tone"` record. -/
theorem breakdown_labels_witness :
    "Unknown" ∈ keysOf (breakdownOf [⟨none⟩, ⟨some "tone"⟩]) ∧
    "tone" ∈ keysOf (breakdownOf [⟨none⟩, ⟨some "tone"⟩]) :=
  ⟨(breakdown_labels [⟨none⟩, ⟨some "tone"⟩]).1 ⟨⟨none⟩, by decide, rfl⟩,
   (breakdown_labels [⟨none⟩, ⟨some "tone"⟩]).2.2.1 "tone" (by decide)
     ⟨⟨some "tone"⟩, by decide, rfl⟩⟩

/-! ## Storage endpoints (`create_feedback`, `list_feedback`, lines 98-114) -/

/-- Modelled from the spec: the `Feedback` model of `schemas.py`, which is
not part of src/ — §3's five user-settable fields (`question`, `response`,
`improvement`, `category` required text; `severity` optional with default
`"medium"`). -/
structure Feedback where
  question : String
  response : String
  improvement : String
  category : String
  severity : Option String
deriving DecidableEq

/-- Modelled from the spec: `create_document` of `database.py`, which is
not part of src/ — §4.2's `insert(collection, record) -> id`: persists the
record and returns a storage-assigned opaque identifier (modelled as the
decimal index of the new record; no claim below depends on the id
scheme). -/
def create_document (docs : List StoredDoc) (payload : Feedback) :
    String × List StoredDoc :=
  (toString docs.length, docs ++ [⟨some payload.category⟩])

/-- `POST /api/feedback` (lines 98-103): HTTP 500 with detail
`"Database not configured"` when the database handle is `None` (and then
the store is untouched), otherwise insert and return the new id.  The
result pairs the HTTP outcome with the resulting store. -/
def create_feedback (db : Option (List StoredDoc)) (payload : Feedback) :
    Except (Nat × String) String × Option (List StoredDoc) :=
  match db with
  | none => (Except.error (500, "Database not configured"), none)
  | some docs => (Except.ok (create_document docs payload).1,
      some (create_document docs payload).2)

/-- Modelled from the spec: `get_documents` of `database.py`, which is not
part of src/ — §4.2's `query(collection, filter, limit)`: up to `limit`
records matching an equality filter over the `category` field. -/
def get_documents (docs : List StoredDoc) (filt : Option String) (limit : Nat) :
    List StoredDoc :=
  match filt with
  | none => docs.take limit
  | some c => (docs.filter (fun x => decide (x.category = some c))).take limit

/-- `GET /api/feedback` (lines 106-114): HTTP 500 when the database handle
is `None`; otherwise `filt` stays empty unless `category` is *truthy*
(Python `if category:` — both `None` and `""` are falsy), in which case it
is the equality filter on `category`. -/
def list_feedback (db : Option (List StoredDoc)) (limit : Nat)
    (category : Option String) : Except (Nat × String) (List StoredDoc) :=
  match db with
  | none => Except.error (500, "Database not configured")
  | some docs =>
      Except.ok (get_documents docs
        (match category with
          | some c => if c = "" then none else some c
          | none => none) limit)

/-- C8 (amended): for every *non-empty* category string `X`, every record
returned by `GET /api/feedback?category=X` has category exactly `X`
(case-sensitive equality, no partial match).  For `X = ""` the handler's
Python truthiness test skips the filter entirely, so records of other
categories are returned (see the counterexample). -/
theorem list_feedback_filter (docs : List StoredDoc) (limit : Nat) (c : String)
    (hc : c ≠ "") (l : List StoredDoc)
    (h : list_feedback (some docs) limit (some c) = Except.ok l) :
    ∀ d ∈ l, d.category = some c := by
  intro d hd
  simp only [list_feedback, if_neg hc, get_documents, Except.ok.injEq] at h
  rw [← h] at hd
  have hd' : d ∈ docs.filter (fun x => decide (x.category = some c)) :=
    (List.take_sublist _ _).subset hd
  have hp := List.of_mem_filter hd'
  exact of_decide_eq_true hp

/-- C8 counterexample: with `X = ""` (a category string), the handler
applies no filter at all, and a record whose category is `"tone"` — which
differs from `""` — is returned. -/
theorem list_feedback_filter_counterexample :
    list_feedback (some [⟨some "tone"⟩]) 50 (some "") =
      Except.ok [⟨some "tone"⟩] ∧
    (⟨some "tone"⟩ : StoredDoc).category ≠ some "" :=
  ⟨rfl, by decide⟩

/-- Witness for C8: the amended theorem applied to a concrete store and
the concrete query `category="tone"`. -/
theorem list_feedback_filter_witness :
    (⟨some "tone"⟩ : StoredDoc).category = some "tone" :=
  list_feedback_filter [⟨some "tone"⟩, ⟨some "accuracy"⟩] 50 "tone" (by decide)
    [⟨some "tone"⟩] rfl ⟨some "tone"⟩ (by decide)

/-- C9: when the database handle is not configured (`None`), each of
`POST /api/feedback`, `GET /api/feedback` and `GET /api/analytics/summary`
fails with HTTP 500 (detail `"Database not configured"`) instead of
crashing, and for the POST no record is persisted — the store is left
unchanged (`none` in, `none` out). -/
theorem db_unconfigured (payload : Feedback) (limit : Nat) (category : Option String) :
    create_feedback none payload = (Except.error (500, "Database not configured"), none) ∧
    list_feedback none limit category = Except.error (500, "Database not configured") ∧
    analytics_summary none = Except.error (500, "Database not configured") :=
  ⟨rfl, rfl, rfl⟩

/-! ## Request validation for the insights endpoint (claim C7) -/

/-- A raw JSON object submitted as one element of `InsightRequest.items`;
`none` models an absent or null field. -/
structure RawItem where
  id : Option String
  question : Option String
  response : Option String
  improvement : Option String
  category : Option String
  severity : Option String
  created_at : Option String
deriving DecidableEq

/-- Pydantic validation of `FeedbackOut` (lines 26-33) applied to a raw
object: each required `str` field (`id`, `question`, `response`,
`improvement`, `category`) must be a present, non-null string — a missing
or null one makes FastAPI reject the request with 422 before the handler
runs; `severity` defaults to `"medium"` and `created_at` to `None`. -/
def validateFeedbackOut (r : RawItem) : Option FeedbackOut :=
  match r.id, r.question, r.response, r.improvement, r.category with
  | some i, some q, some rs, some imp, some c =>
      some ⟨i, q, rs, imp, c, some (r.severity.getD "medium"), r.created_at⟩
  | _, _, _, _, _ => none

/-- Validation of the `items` list of an `InsightRequest`: every raw item
must validate, otherwise the whole request is rejected. -/
def validateItems (rs : List RawItem) : Option (List FeedbackOut) :=
  rs.mapM validateFeedbackOut

/-- A raw item whose `category` is missing/null while all other required
fields are present. -/
def rawMissingCategory : RawItem :=
  ⟨some "1", some "q", some "r", some "i", none, some "medium", none⟩

/-- C7 counterexample: an input item with a missing/null category never
reaches the summarizer's counting loop — request validation rejects it,
because `category` is a required `str` field of `FeedbackOut`.  So no
input is ever "counted under a literal absent/None key". -/
theorem insights_missing_category_rejected :
    validateFeedbackOut rawMissingCategory = none ∧
    validateItems [rawMissingCategory] = none :=
  ⟨rfl, rfl⟩

/-- C7 (amended): the summarizer itself performs no `"Unknown"`
substitution — the keys of its category counts are exactly the item
categories taken verbatim (in particular an item with category `""` is
counted under `""`), in contrast with the aggregation breakdown, which
relabels null and empty categories to `"Unknown"`; but an item with a
missing/null category cannot reach the summarizer, since validation of
the required `category` field rejects the request. -/
theorem insights_no_unknown_substitution :
    (∀ (items : List FeedbackOut) (c : String),
        c ∈ keysOf (countCategories items) ↔ c ∈ items.map FeedbackOut.category) ∧
    countCategories [itemWith ""] = [("", 1)] ∧
    breakdownOf [⟨some ""⟩] = [("Unknown", 1)] ∧
    validateFeedbackOut rawMissingCategory = none :=
  ⟨mem_keysOf_countCategories, by decide, by decide, rfl⟩

end FeedbackApp
